import Mathlib

/-!
The command dispatcher of webconnex/goose (`goose.go`).

`Run` takes a command name, a database handle, a migrations directory and the
remaining command-line arguments, and dispatches to one operation of the
migration engine.  The engine operations (`UpUnapplied`, `UpTo`, ...) live in
other files of the package; here they are a parameter `eng` that maps a call to
its effect on the world (database and file system) and its `error` result.
`Run` is instrumented with the list of engine calls it makes.

Go strings are modelled by `String` (sequences of runes, so the strings that
are valid UTF-8), Go `int64` by `Int` with explicit wrap-around, Go `uint64` by
`Nat` with explicit `% 2^64`.  `ParseUint` walks the bytes of its argument; a
rune above U+007F is encoded by bytes that are all at least 0x80, which take
the same `default:` branch as the rune itself does here.
The standard-library functions `Run` relies on (`strconv.ParseInt` at base 10
and 64 bits, the `%q` verb of `fmt`) are transcribed from the Go sources.
-/

namespace Goose

/-! ## Package-level constants of goose.go -/

/-- The constant `minVersion = int64(0)`. -/
def minVersion : Int := 0

/-- The constant `maxVersion = int64((1 << 63) - 1)`. -/
def maxVersion : Int := 2 ^ 63 - 1

/-! ## strconv.ParseInt(s, 10, 64) -/

namespace strconv

/-- The two sentinel errors a `*NumError` of strconv can carry here. -/
inductive NumErr where
  | ErrSyntax
  | ErrRange
  deriving DecidableEq, Repr

/-- The constant `maxUint64 = 1<<64 - 1`. -/
def maxUint64 : Nat := 2 ^ 64 - 1

/-- The base `Run` passes to `ParseInt`. -/
def base : Nat := 10

/-- The bit size `Run` passes to `ParseInt`. -/
def bitSize : Nat := 64

/-- Go `lower(c) = c | ('x' - 'X')`. -/
def lower (c : Nat) : Nat := c ||| 0x20

/-- The digit switch inside the loop of `ParseUint` (with `base != 0`, so the
underscore case is never taken): `none` is the `default:` syntax error. -/
def digitVal (c : Char) : Option Nat :=
  let b := c.toNat
  if 48 ≤ b ∧ b ≤ 57 then some (b - 48)
  else if 97 ≤ lower b ∧ lower b ≤ 122 then some (lower b - 97 + 10)
  else none

/-- `cutoff = maxUint64/10 + 1`, the smallest number with `cutoff*base > maxUint64`. -/
def cutoff : Nat := maxUint64 / 10 + 1

/-- `maxVal = uint64(1)<<uint(bitSize) - 1` in 64-bit unsigned arithmetic. -/
def maxVal : Nat := (((1 <<< bitSize) % 2 ^ 64) + 2 ^ 64 - 1) % 2 ^ 64

/-- The `for _, c := range []byte(s)` loop of `ParseUint`, accumulator `n`.
Returns the pair `(value, err)` that `ParseUint` returns. -/
def parseUintLoop : List Char → Nat → Nat × Option NumErr
  | [], n => (n, none)
  | c :: cs, n =>
    match digitVal c with
    | none => (0, some NumErr.ErrSyntax)
    | some d =>
      if d ≥ base then (0, some NumErr.ErrSyntax)
      else if n ≥ cutoff then (maxVal, some NumErr.ErrRange)
      else
        let n' := (n * base) % 2 ^ 64
        let n1 := (n' + d) % 2 ^ 64
        if n1 < n' ∨ n1 > maxVal then (maxVal, some NumErr.ErrRange)
        else parseUintLoop cs n1

/-- Go `strconv.ParseUint(s, 10, 64)`: the pair `(n, err)` it returns. -/
def ParseUint (s : List Char) : Nat × Option NumErr :=
  match s with
  | [] => (0, some NumErr.ErrSyntax)
  | _ => parseUintLoop s 0

/-- Go conversion `int64(u)` of a `uint64`. -/
def toInt64 (u : Nat) : Int :=
  if u % 2 ^ 64 < 2 ^ 63 then (u % 2 ^ 64 : Nat) else (u % 2 ^ 64 : Nat) - 2 ^ 64

/-- Go unary minus on `int64` (two's complement wrap-around). -/
def negInt64 (x : Int) : Int :=
  if x = -(2 ^ 63) then x else -x

/-- The second half of `ParseInt`, after `un, err = ParseUint(s, base, bitSize)`:
a syntax error is returned as it is, otherwise the unsigned value is checked
against the signed range and converted. -/
def convertSigned (neg : Bool) (r : Nat × Option NumErr) : Int × Option NumErr :=
  if r.2 = some NumErr.ErrSyntax then (0, r.2)
  else
    let un := r.1
    let cut : Nat := (1 <<< (bitSize - 1)) % 2 ^ 64
    if !neg && decide (un ≥ cut) then ((cut : Int) - 1, some NumErr.ErrRange)
    else if neg && decide (un > cut) then (-(cut : Int), some NumErr.ErrRange)
    else (if neg then negInt64 (toInt64 un) else toInt64 un, none)

/-- Go `strconv.ParseInt(s, 10, 64)`: the pair `(i, err)` it returns. -/
def ParseInt (s : String) : Int × Option NumErr :=
  match s.data with
  | [] => (0, some NumErr.ErrSyntax)
  | c :: rest =>
    if c = '+' then convertSigned false (ParseUint rest)
    else if c = '-' then convertSigned true (ParseUint rest)
    else convertSigned false (ParseUint (c :: rest))

/-- The string `lowerhex = "0123456789abcdef"` indexed at `n`. -/
def lowerhex (n : Nat) : Char :=
  if n < 10 then Char.ofNat (48 + n) else Char.ofNat (87 + n)

/-- Go `strconv.IsPrint`: the Latin-1 fast path is explicit, the Unicode
tables consulted above U+00FF are the parameter `tab`. -/
def IsPrint (tab : Char → Bool) (r : Char) : Bool :=
  if r.toNat ≤ 0xFF then
    if 0x20 ≤ r.toNat ∧ r.toNat ≤ 0x7E then true
    else if 0xA1 ≤ r.toNat then decide (r.toNat ≠ 0xAD)
    else false
  else tab r

/-- Go `appendEscapedRune(buf, r, '"', false, false)`: the text one rune adds. -/
def escapedRune (tab : Char → Bool) (r : Char) : List Char :=
  if r = '"' ∨ r = '\\' then ['\\', r]
  else if IsPrint tab r then [r]
  else if r.toNat = 7 then ['\\', 'a']
  else if r.toNat = 8 then ['\\', 'b']
  else if r.toNat = 12 then ['\\', 'f']
  else if r = '\n' then ['\\', 'n']
  else if r = '\r' then ['\\', 'r']
  else if r = '\t' then ['\\', 't']
  else if r.toNat = 11 then ['\\', 'v']
  else if r.toNat < 0x20 ∨ r.toNat = 0x7f then
    ['\\', 'x', lowerhex (r.toNat / 16 % 16), lowerhex (r.toNat % 16)]
  else if r.toNat < 0x10000 then
    '\\' :: 'u' :: [12, 8, 4, 0].map (fun s => lowerhex (r.toNat / 2 ^ s % 16))
  else
    '\\' :: 'U' :: [28, 24, 20, 16, 12, 8, 4, 0].map (fun s => lowerhex (r.toNat / 2 ^ s % 16))

/-- Go `strconv.Quote(s)`, which is what the `%q` verb of `fmt` prints for a
string operand. -/
def Quote (tab : Char → Bool) (s : String) : String :=
  String.mk ('"' :: (s.data.flatMap (escapedRune tab)) ++ ['"'])

end strconv

/-! ## The engine operations, as seen from `Run` -/

/-- A call to one of the package's operations, with its actual arguments.
`DB` is the type of `*sql.DB` values (nil included). -/
inductive Call (DB : Type) where
  | Up (db : DB) (dir : String)
  | UpUnapplied (db : DB) (dir : String)
  | UpByOne (db : DB) (dir : String)
  | UpTo (db : DB) (dir : String) (version : Int)
  | Apply (db : DB) (dir : String) (version : Int)
  | Revert (db : DB) (dir : String) (version : Int)
  | Create (db : DB) (dir : String) (name : String) (migrationType : String)
  | Down (db : DB) (dir : String)
  | DownTo (db : DB) (dir : String) (version : Int)
  | Fix (dir : String)
  | Redo (db : DB) (dir : String)
  | Reset (db : DB) (dir : String)
  | Status (db : DB) (dir : String)
  | Version (db : DB) (dir : String)
  deriving DecidableEq, Repr

/-- The `error` value `Run` returns when it is not nil: either a fresh error
built by `fmt.Errorf` inside `Run` (with its text), or the very error value an
engine operation returned. -/
inductive RunError (ε : Type) where
  | errorf (msg : String)
  | engine (e : ε)
  deriving DecidableEq, Repr

/-- The behaviour of the engine: the world after the call and the `error` the
operation returns (`none` is nil). -/
abbrev Engine (DB σ ε : Type) := Call DB → σ → σ × Option ε

/-- What one execution of `Run` does: the engine calls made, in order, the
world afterwards, and the returned `error` (`none` is nil). -/
structure RunResult (DB σ ε : Type) where
  calls : List (Call DB)
  world : σ
  err : Option (RunError ε)
  deriving DecidableEq, Repr

/-- The statement pattern `if err := Op(...); err != nil { return err }`
followed by the `return nil` that ends `Run`. -/
def invoke {DB σ ε : Type} (eng : Engine DB σ ε) (c : Call DB) (w : σ) : RunResult DB σ ε :=
  { calls := [c], world := (eng c w).1, err := (eng c w).2.map RunError.engine }

/-- The statement `return fmt.Errorf(...)` with the formatted text `msg`. -/
def fail {DB σ ε : Type} (w : σ) (msg : String) : RunResult DB σ ε :=
  { calls := [], world := w, err := some (RunError.errorf msg) }

/-- The text of `fmt.Errorf("version must be a number (got '%s')", a)`. -/
def versionMsg (a : String) : String :=
  "version must be a number (got '" ++ a ++ "')"

/-- The text of `fmt.Errorf("%q: no such command", command)`. -/
def noSuchCommandMsg (tab : Char → Bool) (command : String) : String :=
  strconv.Quote tab command ++ ": no such command"

/-- The shared body of the cases `up-to`, `apply`, `revert` and `down-to`:
the length check with the case's usage text, `strconv.ParseInt(args[0], 10, 64)`,
and the call `op(db, dir, version)`. -/
def versionCase {DB σ ε : Type} (eng : Engine DB σ ε) (usage : String)
    (op : Int → Call DB) (args : List String) (w : σ) : RunResult DB σ ε :=
  match args with
  | [] => fail w usage
  | a :: _ =>
    match strconv.ParseInt a with
    | (version, none) => invoke eng (op version) w
    | (_, some _) => fail w (versionMsg a)

/-- Go `Run(command, db, dir, args...)` of goose.go. -/
def Run {DB σ ε : Type} (tab : Char → Bool) (eng : Engine DB σ ε)
    (command : String) (db : DB) (dir : String) (args : List String) (w : σ) :
    RunResult DB σ ε :=
  if command = "up" then invoke eng (Call.UpUnapplied db dir) w
  else if command = "up-by-one" then invoke eng (Call.UpByOne db dir) w
  else if command = "up-to" then
    versionCase eng "up-to must be of form: goose [OPTIONS] DRIVER DBSTRING up-to VERSION"
      (Call.UpTo db dir) args w
  else if command = "apply" then
    versionCase eng "apply must be of form: goose [OPTIONS] DRIVER DBSTRING apply VERSION"
      (Call.Apply db dir) args w
  else if command = "revert" then
    versionCase eng "revert must be of form: goose [OPTIONS] DRIVER DBSTRING revert VERSION"
      (Call.Revert db dir) args w
  else if command = "create" then
    match args with
    | [] => fail w "create must be of form: goose [OPTIONS] DRIVER DBSTRING create NAME [go|sql]"
    | name :: rest =>
      let migrationType := if args.length = 2 then rest.headD "go" else "go"
      invoke eng (Call.Create db dir name migrationType) w
  else if command = "down" then invoke eng (Call.Down db dir) w
  else if command = "down-to" then
    versionCase eng "down-to must be of form: goose [OPTIONS] DRIVER DBSTRING down-to VERSION"
      (Call.DownTo db dir) args w
  else if command = "fix" then invoke eng (Call.Fix dir) w
  else if command = "redo" then invoke eng (Call.Redo db dir) w
  else if command = "reset" then invoke eng (Call.Reset db dir) w
  else if command = "status" then invoke eng (Call.Status db dir) w
  else if command = "version" then invoke eng (Call.Version db dir) w
  else fail w (noSuchCommandMsg tab command)

/-! ## Decimal literals, as the specification reads them -/

/-- A character is one of the ten decimal digits. -/
def isDecimalDigit (c : Char) : Bool := decide (48 ≤ c.toNat ∧ c.toNat ≤ 57)

/-- The number denoted by the decimal digits `ds` read after a prefix already
worth `n` (no bound on the size). -/
def digitsValue (n : Nat) (ds : List Char) : Nat :=
  ds.foldl (fun a c => 10 * a + (c.toNat - 48)) n

/-- A non-empty string of decimal digits. -/
def isDigitString (ds : List Char) : Bool := !ds.isEmpty && ds.all isDecimalDigit

/-- The integer a base-10 literal denotes: an optional sign `+` or `-`
followed by one or more decimal digits, leading zeros allowed; `none` when the
string is not such a literal.  The value is an unbounded integer. -/
def decimalLiteral? (s : String) : Option Int :=
  match s.data with
  | [] => none
  | c :: rest =>
    if c = '-' then
      if isDigitString rest then some (-(digitsValue 0 rest : Int)) else none
    else if c = '+' then
      if isDigitString rest then some (digitsValue 0 rest : Int) else none
    else if isDigitString (c :: rest) then some (digitsValue 0 (c :: rest) : Int)
    else none

/-- The range of Go `int64`. -/
def inInt64 (n : Int) : Prop := -(2 ^ 63) ≤ n ∧ n ≤ 2 ^ 63 - 1

instance (n : Int) : Decidable (inInt64 n) := by unfold inInt64; infer_instance

/-- The thirteen command names of the switch in `Run`. -/
def commandNames : List String :=
  ["up", "up-by-one", "up-to", "apply", "revert", "create", "down", "down-to", "fix",
    "redo", "reset", "status", "version"]

/-- The version argument of a call, for the four operations that take one. -/
def callVersion {DB : Type} : Call DB → Option Int
  | Call.UpTo _ _ v => some v
  | Call.Apply _ _ v => some v
  | Call.Revert _ _ v => some v
  | Call.DownTo _ _ v => some v
  | _ => none

/-- The four commands that take a version argument. -/
def versionCommands : List String := ["up-to", "apply", "revert", "down-to"]

/-- A printability table for the worked examples: it is only consulted above
U+00FF. -/
def sampleTab : Char → Bool := fun _ => true

/-- An engine for the worked examples: every operation succeeds, and the world
is the number of operations run so far.  The database handle is `none` (nil)
or `some` connection number. -/
def okEngine : Engine (Option Nat) Nat String := fun _ w => (w + 1, none)

/-- An engine for the worked examples in which every operation fails. -/
def failingEngine : Engine (Option Nat) Nat String := fun _ w => (w, some "boom")

/-! ## The `up` policy, from the specification

The bodies of `UpUnapplied` and `Up` are in files of the package that are not
part of the sources read here; what follows is written from the specification
(data model, shared execution primitive, table of operation semantics and
glossary). -/

/-- Modelled from the spec: the state the Execution Engine works on, which the
missing engine files keep in the database and the migrations directory.
`set` is the Migration Set in the order the Loader produces it (ascending by
version), `ledger` the versions that have a LedgerEntry, `broken` the versions
whose up action fails when it is executed. -/
structure Migrations where
  set : List Int
  ledger : List Int
  broken : List Int
  deriving DecidableEq, Repr

/-- Modelled from the spec: the failure `MigrationFailed` reported by the
missing primitive `runOne`, identified by the offending version. -/
structure MigrationFailed where
  version : Int
  deriving DecidableEq, Repr

/-- Modelled from the spec: the missing shared primitive `runOne(unit, up)`.
A failing action is rolled back and reported, and leaves no ledger entry; a
successful one records the version in the ledger (the ledger write itself is
taken to succeed). -/
def runOneUp (m : Migrations) (v : Int) : Migrations × Option MigrationFailed :=
  if v ∈ m.broken then (m, some { version := v })
  else ({ m with ledger := m.ledger ++ [v] }, none)

/-- Modelled from the spec: the missing batch loop of the engine, which runs
the selected units one after the other and stops at the first failure. -/
def applyAll : List Int → Migrations → Migrations × Option MigrationFailed
  | [], m => (m, none)
  | v :: vs, m =>
    match runOneUp m v with
    | (m1, none) => applyAll vs m1
    | (m1, some e) => (m1, some e)

/-- Modelled from the spec: the targets of mode `up`, every version in Set not
present in Ledger, in Set order. -/
def pendingUnits (m : Migrations) : List Int :=
  m.set.filter (fun v => decide (v ∉ m.ledger))

/-- Modelled from the spec: the missing operation `UpUnapplied` (mode `up` of
the table of operation semantics, gap application). -/
def UpUnapplied (m : Migrations) : Migrations × Option MigrationFailed :=
  applyAll (pendingUnits m) m

/-- Modelled from the spec: the targets under watermark semantics, the
unapplied versions above every applied one. -/
def watermarkUnits (m : Migrations) : List Int :=
  m.set.filter (fun v => decide (v ∉ m.ledger) && m.ledger.all (fun a => decide (a < v)))

/-- Modelled from the spec: the missing operation `Up` of the original
package (watermark semantics of the glossary). -/
def Up (m : Migrations) : Migrations × Option MigrationFailed :=
  applyAll (watermarkUnits m) m

/-- An engine for the worked examples on the `up` policy: `UpUnapplied` and
`Up` are the two operations above, the other operations are not exercised and
leave the state as it is. -/
def policyEngine : Engine (Option Nat) Migrations MigrationFailed := fun c m =>
  match c with
  | Call.UpUnapplied _ _ => UpUnapplied m
  | Call.Up _ _ => Up m
  | _ => (m, none)

/-- The string `s` with `k` extra zeros written in front of its digits (after
the sign, when it has one). -/
def padZeros (k : Nat) (s : String) : String :=
  match s.data with
  | [] => s
  | c :: rest =>
    if c = '-' ∨ c = '+' then String.mk (c :: (List.replicate k '0' ++ rest))
    else String.mk (List.replicate k '0' ++ c :: rest)

/-! ## Lemmas on the parsing loop -/

theorem le_digitsValue (ds : List Char) : ∀ n, n ≤ digitsValue n ds := by
  induction ds with
  | nil => intro n; simp [digitsValue]
  | cons c cs ih =>
    intro n
    have h := ih (10 * n + (c.toNat - 48))
    simp only [digitsValue, List.foldl_cons] at h ⊢
    omega

theorem digitsValue_cons (c : Char) (cs : List Char) (n : Nat) :
    digitsValue n (c :: cs) = digitsValue (10 * n + (c.toNat - 48)) cs := by
  simp [digitsValue]

theorem maxVal_eq : strconv.maxVal = 2 ^ 64 - 1 := by decide

theorem cutoff_eq : strconv.cutoff = 1844674407370955162 := by decide

theorem digitVal_digit (c : Char) (h : isDecimalDigit c = true) :
    strconv.digitVal c = some (c.toNat - 48) := by
  simp only [isDecimalDigit, decide_eq_true_eq] at h
  simp [strconv.digitVal, h]

theorem digitVal_nondigit (c : Char) (h : isDecimalDigit c = false) :
    strconv.digitVal c = none ∨ ∃ d, strconv.digitVal c = some d ∧ 10 ≤ d := by
  simp only [isDecimalDigit, decide_eq_false_iff_not] at h
  unfold strconv.digitVal
  simp only [h, if_false]
  split
  · right; exact ⟨_, rfl, by omega⟩
  · left; rfl

theorem parseUintLoop_spec (cs : List Char) : ∀ n, n < 2 ^ 64 →
    if cs.all isDecimalDigit = true ∧ digitsValue n cs < 2 ^ 64
    then strconv.parseUintLoop cs n = (digitsValue n cs, none)
    else strconv.parseUintLoop cs n = (0, some strconv.NumErr.ErrSyntax) ∨
      strconv.parseUintLoop cs n = (strconv.maxVal, some strconv.NumErr.ErrRange) := by
  induction cs with
  | nil =>
    intro n hn
    have h : ([] : List Char).all isDecimalDigit = true ∧ digitsValue n [] < 2 ^ 64 :=
      ⟨rfl, hn⟩
    rw [if_pos h]
    rfl
  | cons c cs ih =>
    intro n hn
    cases hc : isDecimalDigit c with
    | false =>
      have hne : ¬ ((c :: cs).all isDecimalDigit = true ∧ digitsValue n (c :: cs) < 2 ^ 64) := by
        simp [hc]
      rw [if_neg hne]
      left
      rcases digitVal_nondigit c hc with h | ⟨d, h, hd⟩
      · simp [strconv.parseUintLoop, h]
      · simp [strconv.parseUintLoop, h, strconv.base, hd]
    | true =>
      have hd := digitVal_digit c hc
      have hc' := hc
      simp only [isDecimalDigit, decide_eq_true_eq] at hc'
      have hlt : c.toNat - 48 < 10 := by omega
      have hmono := le_digitsValue cs (10 * n + (c.toNat - 48))
      rw [digitsValue_cons]
      by_cases hcut : n ≥ strconv.cutoff
      · have hne : ¬ ((c :: cs).all isDecimalDigit = true ∧
            digitsValue (10 * n + (c.toNat - 48)) cs < 2 ^ 64) := by
          rw [cutoff_eq] at hcut
          intro h
          omega
        rw [if_neg hne]
        right
        simp [strconv.parseUintLoop, hd, strconv.base, hlt, hcut]
      · have hcut' := hcut
        rw [cutoff_eq] at hcut'
        have hn' : n * 10 % 2 ^ 64 = n * 10 := Nat.mod_eq_of_lt (by omega)
        by_cases hov : 10 * n + (c.toNat - 48) < 2 ^ 64
        · have hn1 : (n * 10 + (c.toNat - 48)) % 2 ^ 64 = 10 * n + (c.toNat - 48) := by
            rw [Nat.mod_eq_of_lt (by omega)]; omega
          have hstep : strconv.parseUintLoop (c :: cs) n =
              strconv.parseUintLoop cs (10 * n + (c.toNat - 48)) := by
            simp only [strconv.parseUintLoop, hd, strconv.base, maxVal_eq]
            rw [if_neg (by omega), if_neg hcut, hn', hn1, if_neg (by omega)]
          rw [hstep]
          have := ih (10 * n + (c.toNat - 48)) hov
          simpa [hc] using this
        · have hne : ¬ ((c :: cs).all isDecimalDigit = true ∧
              digitsValue (10 * n + (c.toNat - 48)) cs < 2 ^ 64) := by
            intro h
            omega
          rw [if_neg hne]
          right
          have hn1 : (n * 10 + (c.toNat - 48)) % 2 ^ 64 < n * 10 := by omega
          simp only [strconv.parseUintLoop, hd, strconv.base, maxVal_eq]
          rw [if_neg (by omega), if_neg hcut, hn', if_pos (Or.inl hn1)]

theorem ParseUint_spec (s : List Char) :
    if isDigitString s = true ∧ digitsValue 0 s < 2 ^ 64
    then strconv.ParseUint s = (digitsValue 0 s, none)
    else strconv.ParseUint s = (0, some strconv.NumErr.ErrSyntax) ∨
      strconv.ParseUint s = (strconv.maxVal, some strconv.NumErr.ErrRange) := by
  cases s with
  | nil => simp [isDigitString, strconv.ParseUint]
  | cons c cs =>
    have h := parseUintLoop_spec (c :: cs) 0 (by norm_num)
    simpa [isDigitString, strconv.ParseUint] using h

theorem signCut_eq : (1 <<< (strconv.bitSize - 1)) % 2 ^ 64 = 2 ^ 63 := by decide

theorem convertSigned_pos_big (v : Nat) (h : 2 ^ 63 ≤ v) :
    strconv.convertSigned false (v, none) = (2 ^ 63 - 1, some strconv.NumErr.ErrRange) := by
  unfold strconv.convertSigned
  simp only [signCut_eq]
  rw [if_neg (by simp), if_pos (by simpa using h)]
  norm_num

theorem convertSigned_pos_ok (v : Nat) (h : v < 2 ^ 63) :
    strconv.convertSigned false (v, none) = ((v : Int), none) := by
  have h1 : v % 2 ^ 64 = v := Nat.mod_eq_of_lt (by omega)
  unfold strconv.convertSigned
  simp only [signCut_eq]
  rw [if_neg (by simp), if_neg (by simpa using h), if_neg (by simp)]
  simp only [strconv.toInt64, h1]
  rw [if_neg (by simp), if_pos h]

theorem convertSigned_neg_big (v : Nat) (h : 2 ^ 63 < v) :
    strconv.convertSigned true (v, none) = (-(2 ^ 63), some strconv.NumErr.ErrRange) := by
  unfold strconv.convertSigned
  simp only [signCut_eq]
  rw [if_neg (by simp), if_neg (by simp), if_pos (by simpa using h)]
  norm_num

theorem convertSigned_neg_ok (v : Nat) (h : v ≤ 2 ^ 63) :
    strconv.convertSigned true (v, none) = (-(v : Int), none) := by
  have h1 : v % 2 ^ 64 = v := Nat.mod_eq_of_lt (by omega)
  unfold strconv.convertSigned
  simp only [signCut_eq]
  rw [if_neg (by simp), if_neg (by simp), if_neg (by simpa using h), if_pos trivial]
  simp only [strconv.toInt64, h1, strconv.negInt64]
  by_cases h2 : v < 2 ^ 63
  · rw [if_pos h2, if_neg (by omega)]
  · have hv : v = 2 ^ 63 := by omega
    subst hv
    norm_num

theorem convertSigned_ok (neg : Bool) (v : Nat) (n : Int) :
    strconv.convertSigned neg (v, none) = (n, none) ↔
      n = (if neg = true then -(v : Int) else (v : Int)) ∧ inInt64 n := by
  unfold inInt64
  cases neg with
  | false =>
    by_cases h : 2 ^ 63 ≤ v
    · rw [convertSigned_pos_big v h]
      simp only [Prod.mk.injEq, Bool.false_eq_true, if_false]
      constructor
      · intro hn; exact absurd hn.2 (by simp)
      · intro hn; omega
    · rw [convertSigned_pos_ok v (by omega)]
      simp only [Prod.mk.injEq, Bool.false_eq_true, if_false, and_true]
      constructor
      · intro hn; omega
      · intro hn; omega
  | true =>
    by_cases h : 2 ^ 63 < v
    · rw [convertSigned_neg_big v h]
      simp only [Prod.mk.injEq, if_true]
      constructor
      · intro hn; exact absurd hn.2 (by simp)
      · intro hn; omega
    · rw [convertSigned_neg_ok v (by omega)]
      simp only [Prod.mk.injEq, if_true, and_true]
      constructor
      · intro hn; omega
      · intro hn; omega

theorem convertSigned_err (neg : Bool) (r : Nat × Option strconv.NumErr)
    (h : r = (0, some strconv.NumErr.ErrSyntax) ∨
      r = (strconv.maxVal, some strconv.NumErr.ErrRange)) :
    ∃ e, (strconv.convertSigned neg r).2 = some e := by
  rcases h with h | h
  · subst h
    exact ⟨strconv.NumErr.ErrSyntax, by simp [strconv.convertSigned]⟩
  · subst h
    cases neg
    · exact ⟨strconv.NumErr.ErrRange, by decide⟩
    · exact ⟨strconv.NumErr.ErrRange, by decide⟩

theorem convertSigned_ParseUint (neg : Bool) (body : List Char) (n : Int) :
    strconv.convertSigned neg (strconv.ParseUint body) = (n, none) ↔
      isDigitString body = true ∧
        n = (if neg = true then -(digitsValue 0 body : Int) else (digitsValue 0 body : Int)) ∧
        inInt64 n := by
  have hspec := ParseUint_spec body
  by_cases hd : isDigitString body = true ∧ digitsValue 0 body < 2 ^ 64
  · rw [if_pos hd] at hspec
    rw [hspec, convertSigned_ok]
    simp [hd.1]
  · rw [if_neg hd] at hspec
    obtain ⟨e, he⟩ := convertSigned_err neg _ hspec
    constructor
    · intro h
      rw [h] at he
      exact absurd he (by simp)
    · rintro ⟨h1, h2, h3⟩
      exfalso
      apply hd
      refine ⟨h1, ?_⟩
      unfold inInt64 at h3
      cases neg
      · simp only [Bool.false_eq_true, if_false] at h2
        omega
      · simp only [if_true] at h2
        omega

/-- `ParseInt` succeeds with `n` exactly on the base-10 literals of an `n` in
the `int64` range. -/
theorem ParseInt_ok_iff (a : String) (n : Int) :
    strconv.ParseInt a = (n, none) ↔ decimalLiteral? a = some n ∧ inInt64 n := by
  unfold strconv.ParseInt decimalLiteral?
  cases hdat : a.data with
  | nil => simp
  | cons c rest =>
    simp only
    by_cases hp : c = '+'
    · have hm : ¬ c = '-' := by rw [hp]; decide
      rw [if_pos hp, if_neg hm, if_pos hp, convertSigned_ParseUint]
      by_cases hds : isDigitString rest = true
      · simp [hds, eq_comm]
      · simp [hds]
    · rw [if_neg hp]
      by_cases hm : c = '-'
      · rw [if_pos hm, if_pos hm, convertSigned_ParseUint]
        by_cases hds : isDigitString rest = true
        · simp [hds, eq_comm]
        · simp [hds]
      · rw [if_neg hm, if_neg hm, if_neg hp, convertSigned_ParseUint]
        by_cases hds : isDigitString (c :: rest) = true
        · simp [hds, eq_comm]
        · simp [hds]

/-- `ParseInt` returns an error exactly when the string is not a base-10
literal of an integer in the `int64` range. -/
theorem ParseInt_err_iff (a : String) :
    (∃ e, (strconv.ParseInt a).2 = some e) ↔ ¬ ∃ n, decimalLiteral? a = some n ∧ inInt64 n := by
  constructor
  · rintro ⟨e, he⟩ ⟨n, hn⟩
    rw [(ParseInt_ok_iff a n).2 hn] at he
    exact absurd he (by simp)
  · intro h
    cases hr : (strconv.ParseInt a).2 with
    | some e => exact ⟨e, rfl⟩
    | none =>
      exfalso
      apply h
      refine ⟨(strconv.ParseInt a).1, (ParseInt_ok_iff a _).1 ?_⟩
      rw [← hr]

/-! ## Lemmas on the cases of `Run` -/

theorem versionCase_ok {DB σ ε : Type} (eng : Engine DB σ ε) (usage : String)
    (op : Int → Call DB) (a : String) (rest : List String) (w : σ) (n : Int)
    (h : strconv.ParseInt a = (n, none)) :
    versionCase eng usage op (a :: rest) w = invoke eng (op n) w := by
  simp only [versionCase, h]

theorem versionCase_err {DB σ ε : Type} (eng : Engine DB σ ε) (usage : String)
    (op : Int → Call DB) (a : String) (rest : List String) (w : σ) (e : strconv.NumErr)
    (h : (strconv.ParseInt a).2 = some e) :
    versionCase eng usage op (a :: rest) w = fail w (versionMsg a) := by
  have h2 : strconv.ParseInt a = ((strconv.ParseInt a).1, some e) := by rw [← h]
  simp only [versionCase]
  rw [h2]

theorem ite_rule {α : Type} (P : α → Prop) (c : Prop) [Decidable c] (a b : α)
    (ha : P a) (hb : P b) : P (if c then a else b) := by
  split
  · exact ha
  · exact hb

/-- Case rule for the outcome of `Run`: a property that holds of every call of
an operation without version argument, of every version-taking case, and of
every error built by `Run`, holds of `Run`. -/
theorem Run_rule_fine {DB σ ε : Type} (tab : Char → Bool) (eng : Engine DB σ ε)
    (command : String) (db : DB) (dir : String) (args : List String) (w : σ)
    (P : RunResult DB σ ε → Prop)
    (hplain : ∀ c, callVersion c = none → P (invoke eng c w))
    (hver : ∀ (usage : String) (op : Int → Call DB), (∀ x, callVersion (op x) = some x) →
      P (versionCase eng usage op args w))
    (hfail : ∀ msg, P (fail w msg)) : P (Run tab eng command db dir args w) := by
  unfold Run
  refine ite_rule P _ _ _ (hplain _ rfl) ?_
  refine ite_rule P _ _ _ (hplain _ rfl) ?_
  refine ite_rule P _ _ _ (hver _ _ (fun _ => rfl)) ?_
  refine ite_rule P _ _ _ (hver _ _ (fun _ => rfl)) ?_
  refine ite_rule P _ _ _ (hver _ _ (fun _ => rfl)) ?_
  refine ite_rule P _ _ _ ?_ ?_
  · cases args with
    | nil => exact hfail _
    | cons name rest => exact hplain _ rfl
  refine ite_rule P _ _ _ (hplain _ rfl) ?_
  refine ite_rule P _ _ _ (hver _ _ (fun _ => rfl)) ?_
  refine ite_rule P _ _ _ (hplain _ rfl) ?_
  refine ite_rule P _ _ _ (hplain _ rfl) ?_
  refine ite_rule P _ _ _ (hplain _ rfl) ?_
  refine ite_rule P _ _ _ (hplain _ rfl) ?_
  refine ite_rule P _ _ _ (hplain _ rfl) ?_
  exact hfail _

/-- Coarser case rule: a property of every single engine call and of every
error built by `Run` holds of `Run`. -/
theorem Run_rule {DB σ ε : Type} (tab : Char → Bool) (eng : Engine DB σ ε)
    (command : String) (db : DB) (dir : String) (args : List String) (w : σ)
    (P : RunResult DB σ ε → Prop) (hcall : ∀ c, P (invoke eng c w))
    (hfail : ∀ msg, P (fail w msg)) : P (Run tab eng command db dir args w) := by
  refine Run_rule_fine tab eng command db dir args w P (fun c _ => hcall c) ?_ hfail
  intro usage op _
  cases args with
  | nil => exact hfail usage
  | cons a rest =>
    cases hr : (strconv.ParseInt a).2 with
    | none =>
      have h2 : strconv.ParseInt a = ((strconv.ParseInt a).1, none) := by rw [← hr]
      rw [versionCase_ok eng usage op a rest w _ h2]
      exact hcall _
    | some e =>
      rw [versionCase_err eng usage op a rest w e hr]
      exact hfail _

/-- Whatever the command and the arguments, `Run` either makes one engine call
and returns its outcome, or makes none and returns an error it built itself. -/
theorem Run_cases {DB σ ε : Type} (tab : Char → Bool) (eng : Engine DB σ ε)
    (command : String) (db : DB) (dir : String) (args : List String) (w : σ) :
    (∃ c, Run tab eng command db dir args w = invoke eng c w) ∨
      (∃ msg, Run tab eng command db dir args w = fail w msg) :=
  Run_rule tab eng command db dir args w
    (fun r => (∃ c, r = invoke eng c w) ∨ (∃ msg, r = fail w msg))
    (fun c => Or.inl ⟨c, rfl⟩) (fun msg => Or.inr ⟨msg, rfl⟩)

/-! ## One equation per case of the switch -/

theorem Run_up {DB σ ε : Type} (tab : Char → Bool) (eng : Engine DB σ ε)
    (db : DB) (dir : String) (args : List String) (w : σ) :
    Run tab eng "up" db dir args w = invoke eng (Call.UpUnapplied db dir) w := rfl

theorem Run_up_by_one {DB σ ε : Type} (tab : Char → Bool) (eng : Engine DB σ ε)
    (db : DB) (dir : String) (args : List String) (w : σ) :
    Run tab eng "up-by-one" db dir args w = invoke eng (Call.UpByOne db dir) w := rfl

theorem Run_down {DB σ ε : Type} (tab : Char → Bool) (eng : Engine DB σ ε)
    (db : DB) (dir : String) (args : List String) (w : σ) :
    Run tab eng "down" db dir args w = invoke eng (Call.Down db dir) w := rfl

theorem Run_fix {DB σ ε : Type} (tab : Char → Bool) (eng : Engine DB σ ε)
    (db : DB) (dir : String) (args : List String) (w : σ) :
    Run tab eng "fix" db dir args w = invoke eng (Call.Fix dir) w := rfl

theorem Run_redo {DB σ ε : Type} (tab : Char → Bool) (eng : Engine DB σ ε)
    (db : DB) (dir : String) (args : List String) (w : σ) :
    Run tab eng "redo" db dir args w = invoke eng (Call.Redo db dir) w := rfl

theorem Run_reset {DB σ ε : Type} (tab : Char → Bool) (eng : Engine DB σ ε)
    (db : DB) (dir : String) (args : List String) (w : σ) :
    Run tab eng "reset" db dir args w = invoke eng (Call.Reset db dir) w := rfl

theorem Run_status {DB σ ε : Type} (tab : Char → Bool) (eng : Engine DB σ ε)
    (db : DB) (dir : String) (args : List String) (w : σ) :
    Run tab eng "status" db dir args w = invoke eng (Call.Status db dir) w := rfl

theorem Run_version {DB σ ε : Type} (tab : Char → Bool) (eng : Engine DB σ ε)
    (db : DB) (dir : String) (args : List String) (w : σ) :
    Run tab eng "version" db dir args w = invoke eng (Call.Version db dir) w := rfl

theorem Run_up_to {DB σ ε : Type} (tab : Char → Bool) (eng : Engine DB σ ε)
    (db : DB) (dir : String) (args : List String) (w : σ) :
    Run tab eng "up-to" db dir args w =
      versionCase eng "up-to must be of form: goose [OPTIONS] DRIVER DBSTRING up-to VERSION"
        (Call.UpTo db dir) args w := rfl

theorem Run_apply {DB σ ε : Type} (tab : Char → Bool) (eng : Engine DB σ ε)
    (db : DB) (dir : String) (args : List String) (w : σ) :
    Run tab eng "apply" db dir args w =
      versionCase eng "apply must be of form: goose [OPTIONS] DRIVER DBSTRING apply VERSION"
        (Call.Apply db dir) args w := rfl

theorem Run_revert {DB σ ε : Type} (tab : Char → Bool) (eng : Engine DB σ ε)
    (db : DB) (dir : String) (args : List String) (w : σ) :
    Run tab eng "revert" db dir args w =
      versionCase eng "revert must be of form: goose [OPTIONS] DRIVER DBSTRING revert VERSION"
        (Call.Revert db dir) args w := rfl

theorem Run_down_to {DB σ ε : Type} (tab : Char → Bool) (eng : Engine DB σ ε)
    (db : DB) (dir : String) (args : List String) (w : σ) :
    Run tab eng "down-to" db dir args w =
      versionCase eng "down-to must be of form: goose [OPTIONS] DRIVER DBSTRING down-to VERSION"
        (Call.DownTo db dir) args w := rfl

theorem Run_create_nil {DB σ ε : Type} (tab : Char → Bool) (eng : Engine DB σ ε)
    (db : DB) (dir : String) (w : σ) :
    Run tab eng "create" db dir [] w =
      fail w "create must be of form: goose [OPTIONS] DRIVER DBSTRING create NAME [go|sql]" := rfl

theorem Run_create_cons {DB σ ε : Type} (tab : Char → Bool) (eng : Engine DB σ ε)
    (db : DB) (dir : String) (name : String) (rest : List String) (w : σ) :
    Run tab eng "create" db dir (name :: rest) w =
      invoke eng (Call.Create db dir name
        (if (name :: rest).length = 2 then rest.headD "go" else "go")) w := rfl

theorem Run_default {DB σ ε : Type} (tab : Char → Bool) (eng : Engine DB σ ε)
    (command : String) (db : DB) (dir : String) (args : List String) (w : σ)
    (h : command ∉ commandNames) :
    Run tab eng command db dir args w = fail w (noSuchCommandMsg tab command) := by
  simp only [commandNames, List.mem_cons, List.mem_singleton, not_or, List.not_mem_nil,
    or_false] at h
  obtain ⟨h1, h2, h3, h4, h5, h6, h7, h8, h9, h10, h11, h12, h13⟩ := h
  unfold Run
  rw [if_neg h1, if_neg h2, if_neg h3, if_neg h4, if_neg h5, if_neg h6, if_neg h7, if_neg h8,
    if_neg h9, if_neg h10, if_neg h11, if_neg h12, if_neg h13]

theorem noSuchCommandMsg_head (tab : Char → Bool) (command : String) :
    (noSuchCommandMsg tab command).data.head? = some '"' := by
  simp [noSuchCommandMsg, strconv.Quote, String.data_append]

theorem versionMsg_head (a : String) : (versionMsg a).data.head? = some 'v' := by
  simp [versionMsg, String.data_append]

theorem versionMsg_ne_noSuchCommandMsg (tab : Char → Bool) (a command : String) :
    versionMsg a ≠ noSuchCommandMsg tab command := by
  intro h
  have h1 := versionMsg_head a
  rw [h, noSuchCommandMsg_head] at h1
  exact absurd h1 (by decide)

/-- Every version handed to the engine is the result of a successful
`ParseInt` on the first argument. -/
theorem Run_version_parsed {DB σ ε : Type} (tab : Char → Bool) (eng : Engine DB σ ε)
    (command : String) (db : DB) (dir : String) (args : List String) (w : σ)
    (c : Call DB) (hc : c ∈ (Run tab eng command db dir args w).calls) (v : Int)
    (hv : callVersion c = some v) :
    ∃ a rest, args = a :: rest ∧ strconv.ParseInt a = (v, none) := by
  revert hc
  refine Run_rule_fine tab eng command db dir args w
    (fun r => c ∈ r.calls → ∃ a rest, args = a :: rest ∧ strconv.ParseInt a = (v, none))
    ?_ ?_ ?_
  · intro c0 h0 hmem
    simp only [invoke, List.mem_singleton] at hmem
    subst hmem
    rw [h0] at hv
    exact absurd hv (by simp)
  · intro usage op hop hmem
    cases args with
    | nil => simp [versionCase, fail] at hmem
    | cons a rest =>
      cases hr : (strconv.ParseInt a).2 with
      | none =>
        have h2 : strconv.ParseInt a = ((strconv.ParseInt a).1, none) := by rw [← hr]
        rw [versionCase_ok eng usage op a rest w _ h2] at hmem
        simp only [invoke, List.mem_singleton] at hmem
        subst hmem
        rw [hop] at hv
        injection hv with hv
        subst hv
        exact ⟨a, rest, rfl, h2⟩
      | some e =>
        rw [versionCase_err eng usage op a rest w e hr] at hmem
        simp [fail] at hmem
  · intro msg hmem
    simp [fail] at hmem

theorem versionCase_err_iff {DB σ ε : Type} (eng : Engine DB σ ε) (usage : String)
    (op : Int → Call DB) (a : String) (rest : List String) (w : σ) :
    (versionCase eng usage op (a :: rest) w).err = some (RunError.errorf (versionMsg a)) ↔
      ¬ ∃ n, decimalLiteral? a = some n ∧ inInt64 n := by
  rw [← ParseInt_err_iff]
  cases hr : (strconv.ParseInt a).2 with
  | none =>
    have h2 : strconv.ParseInt a = ((strconv.ParseInt a).1, none) := by rw [← hr]
    rw [versionCase_ok eng usage op a rest w _ h2]
    cases he : (eng (op (strconv.ParseInt a).1) w).2 <;> simp [invoke, he]
  | some e =>
    rw [versionCase_err eng usage op a rest w e hr]
    simp [fail]

theorem versionCase_err_quiet {DB σ ε : Type} (eng : Engine DB σ ε) (usage : String)
    (op : Int → Call DB) (a : String) (rest : List String) (w : σ) (msg : String)
    (h : (versionCase eng usage op (a :: rest) w).err = some (RunError.errorf msg)) :
    (versionCase eng usage op (a :: rest) w).calls = [] ∧
      (versionCase eng usage op (a :: rest) w).world = w := by
  cases hr : (strconv.ParseInt a).2 with
  | none =>
    have h2 : strconv.ParseInt a = ((strconv.ParseInt a).1, none) := by rw [← hr]
    rw [versionCase_ok eng usage op a rest w _ h2] at h
    cases he : (eng (op (strconv.ParseInt a).1) w).2 <;> simp [invoke, he] at h
  | some e =>
    rw [versionCase_err eng usage op a rest w e hr]
    exact ⟨rfl, rfl⟩

theorem invoke_err_ne_errorf {DB σ ε : Type} (eng : Engine DB σ ε) (c : Call DB) (w : σ)
    (msg : String) : (invoke eng c w).err ≠ some (RunError.errorf msg) := by
  cases he : (eng c w).2 <;> simp [invoke, he]

theorem versionCase_ne_noSuchCommand {DB σ ε : Type} (tab : Char → Bool)
    (eng : Engine DB σ ε) (usage : String) (op : Int → Call DB) (args : List String) (w : σ)
    (command : String) (hu : usage.data.head? ≠ some '"') :
    (versionCase eng usage op args w).err ≠
      some (RunError.errorf (noSuchCommandMsg tab command)) := by
  cases args with
  | nil =>
    intro h
    simp only [versionCase, fail, Option.some.injEq, RunError.errorf.injEq] at h
    apply hu
    rw [h]
    exact noSuchCommandMsg_head tab command
  | cons a rest =>
    cases hr : (strconv.ParseInt a).2 with
    | none =>
      have h2 : strconv.ParseInt a = ((strconv.ParseInt a).1, none) := by rw [← hr]
      rw [versionCase_ok eng usage op a rest w _ h2]
      exact invoke_err_ne_errorf eng _ w _
    | some e =>
      rw [versionCase_err eng usage op a rest w e hr]
      intro h
      simp only [fail, Option.some.injEq, RunError.errorf.injEq] at h
      exact versionMsg_ne_noSuchCommandMsg tab a command h

/-! ## Lemmas on the `up` policy -/

theorem applyAll_ok (vs : List Int) : ∀ m : Migrations, (∀ v ∈ vs, v ∉ m.broken) →
    applyAll vs m = ({ m with ledger := m.ledger ++ vs }, none) := by
  induction vs with
  | nil => intro m _; simp [applyAll]
  | cons v vs ih =>
    intro m h
    have hv : v ∉ m.broken := h v (List.mem_cons_self v vs)
    have hvs : ∀ x ∈ vs, x ∉ m.broken := fun x hx => h x (List.mem_cons_of_mem v hx)
    simp only [applyAll, runOneUp, if_neg hv]
    rw [ih { m with ledger := m.ledger ++ [v] } hvs]
    simp

theorem applyAll_done (vs : List Int) : ∀ m : Migrations, (applyAll vs m).2 = none →
    (applyAll vs m).1.ledger = m.ledger ++ vs := by
  induction vs with
  | nil => intro m _; simp [applyAll]
  | cons v vs ih =>
    intro m h
    by_cases hv : v ∈ m.broken
    · simp [applyAll, runOneUp, hv] at h
    · simp only [applyAll, runOneUp, if_neg hv] at h ⊢
      rw [ih { m with ledger := m.ledger ++ [v] } h]
      simp

theorem applyAll_keeps (vs : List Int) : ∀ (m : Migrations) (a : Int), a ∈ m.ledger →
    a ∈ (applyAll vs m).1.ledger := by
  induction vs with
  | nil => intro m a h; simpa [applyAll] using h
  | cons v vs ih =>
    intro m a h
    by_cases hv : v ∈ m.broken
    · simpa [applyAll, runOneUp, hv] using h
    · simp only [applyAll, runOneUp, if_neg hv]
      apply ih
      simp [h]

theorem mem_ledger_or_pending (m : Migrations) (v : Int) (hv : v ∈ m.set) :
    v ∈ m.ledger ++ pendingUnits m := by
  by_cases h : v ∈ m.ledger
  · exact List.mem_append_left _ h
  · apply List.mem_append_right
    simp [pendingUnits, hv, h]

/-! ## The claims -/

/-- C1: `Run("up", db, dir, args...)` makes exactly one engine call, which is
`UpUnapplied(db, dir)`; it never calls `Up`; the error it returns and the world
it leaves are those of `UpUnapplied`.  So `up` follows gap application: with
`UpUnapplied` as the specification describes it, no applied version is lost;
when `up` returns nil every version of the Set is in the ledger afterwards, in
particular every unapplied version lower than an applied one; and `up` does
return nil, having applied exactly the pending versions, when no pending
unit fails. -/
theorem up_runs_UpUnapplied {DB σ ε : Type} (tab : Char → Bool) (eng : Engine DB σ ε)
    (db : DB) (dir : String) (args : List String) (w : σ) :
    ((Run tab eng "up" db dir args w).calls = [Call.UpUnapplied db dir] ∧
      (∀ db1 dir1, Call.Up db1 dir1 ∉ (Run tab eng "up" db dir args w).calls) ∧
      (Run tab eng "up" db dir args w).err =
        (eng (Call.UpUnapplied db dir) w).2.map RunError.engine ∧
      (Run tab eng "up" db dir args w).world = (eng (Call.UpUnapplied db dir) w).1) ∧
    ∀ (pol : Engine DB Migrations MigrationFailed) (m : Migrations),
      pol (Call.UpUnapplied db dir) m = UpUnapplied m →
      (∀ a ∈ m.ledger, a ∈ (Run tab pol "up" db dir args m).world.ledger) ∧
      ((Run tab pol "up" db dir args m).err = none →
        (∀ v ∈ m.set, v ∈ (Run tab pol "up" db dir args m).world.ledger) ∧
        (∀ v ∈ m.set, v ∉ m.ledger → ∀ a ∈ m.ledger, v < a →
          v ∈ (Run tab pol "up" db dir args m).world.ledger)) ∧
      ((∀ v ∈ pendingUnits m, v ∉ m.broken) →
        (Run tab pol "up" db dir args m).err = none ∧
        (Run tab pol "up" db dir args m).world.ledger = m.ledger ++ pendingUnits m) := by
  refine ⟨?_, ?_⟩
  · rw [Run_up]
    refine ⟨rfl, ?_, rfl, rfl⟩
    intro db1 dir1 h
    simp [invoke] at h
  · intro pol m hpol
    have hworld : (Run tab pol "up" db dir args m).world = (UpUnapplied m).1 := by
      rw [Run_up]; simp only [invoke]; rw [hpol]
    have herr : (Run tab pol "up" db dir args m).err =
        (UpUnapplied m).2.map RunError.engine := by
      rw [Run_up]; simp only [invoke]; rw [hpol]
    rw [hworld, herr]
    have hall : (UpUnapplied m).2 = none → ∀ v ∈ m.set, v ∈ (UpUnapplied m).1.ledger := by
      intro hnone v hv
      unfold UpUnapplied at hnone ⊢
      rw [applyAll_done _ m hnone]
      exact mem_ledger_or_pending m v hv
    refine ⟨?_, ?_, ?_⟩
    · intro a ha
      exact applyAll_keeps _ m a ha
    · intro hnone
      have hnone2 : (UpUnapplied m).2 = none := by
        cases h2 : (UpUnapplied m).2 with
        | none => rfl
        | some e => rw [h2] at hnone; simp at hnone
      exact ⟨hall hnone2, fun v hv _ _ _ _ => hall hnone2 v hv⟩
    · intro hok
      unfold UpUnapplied
      rw [applyAll_ok _ m hok]
      exact ⟨rfl, rfl⟩

/-- Worked example for C1, the scenario of the fork's test: versions 9 and 10
are in the Set, 10 is applied, 9 arrives later.  `up` applies 9, which is below
the highest applied version; the watermark operation `Up` would leave it out. -/
theorem up_runs_UpUnapplied_witness :
    (Run sampleTab policyEngine "up" none "migrations" []
        { set := [1, 2, 3, 9, 10], ledger := [1, 2, 3, 10], broken := [] }).err = none ∧
      (Run sampleTab policyEngine "up" none "migrations" []
        { set := [1, 2, 3, 9, 10], ledger := [1, 2, 3, 10], broken := [] }).world.ledger =
        [1, 2, 3, 10, 9] ∧
      (Up { set := [1, 2, 3, 9, 10], ledger := [1, 2, 3, 10], broken := [] }).1.ledger =
        [1, 2, 3, 10] :=
  have h := ((up_runs_UpUnapplied sampleTab okEngine none "migrations" [] 0).2 policyEngine
    { set := [1, 2, 3, 9, 10], ledger := [1, 2, 3, 10], broken := [] } rfl).2.2 (by decide)
  ⟨h.1, h.2.trans (by decide), by decide⟩

/-- C2: each of the eleven command names up, up-by-one, up-to, apply, down,
down-to, revert, redo, reset, status, version makes `Run` perform exactly one
engine call, the operation of that name (up goes to `UpUnapplied`), with the
caller's `db` and `dir`, and for the four version-taking commands with the
version parsed from `args[0]`. -/
theorem each_command_runs_its_operation {DB σ ε : Type} (tab : Char → Bool)
    (eng : Engine DB σ ε) (db : DB) (dir : String) (args : List String) (w : σ)
    (a : String) (rest : List String) (v : Int) (h : strconv.ParseInt a = (v, none)) :
    (∀ c, (invoke eng c w).calls = [c]) ∧
      Run tab eng "up" db dir args w = invoke eng (Call.UpUnapplied db dir) w ∧
      Run tab eng "up-by-one" db dir args w = invoke eng (Call.UpByOne db dir) w ∧
      Run tab eng "up-to" db dir (a :: rest) w = invoke eng (Call.UpTo db dir v) w ∧
      Run tab eng "apply" db dir (a :: rest) w = invoke eng (Call.Apply db dir v) w ∧
      Run tab eng "down" db dir args w = invoke eng (Call.Down db dir) w ∧
      Run tab eng "down-to" db dir (a :: rest) w = invoke eng (Call.DownTo db dir v) w ∧
      Run tab eng "revert" db dir (a :: rest) w = invoke eng (Call.Revert db dir v) w ∧
      Run tab eng "redo" db dir args w = invoke eng (Call.Redo db dir) w ∧
      Run tab eng "reset" db dir args w = invoke eng (Call.Reset db dir) w ∧
      Run tab eng "status" db dir args w = invoke eng (Call.Status db dir) w ∧
      Run tab eng "version" db dir args w = invoke eng (Call.Version db dir) w := by
  refine ⟨fun _ => rfl, Run_up .., Run_up_by_one .., ?_, ?_, Run_down .., ?_, ?_,
    Run_redo .., Run_reset .., Run_status .., Run_version ..⟩
  · rw [Run_up_to]; exact versionCase_ok _ _ _ a rest w v h
  · rw [Run_apply]; exact versionCase_ok _ _ _ a rest w v h
  · rw [Run_down_to]; exact versionCase_ok _ _ _ a rest w v h
  · rw [Run_revert]; exact versionCase_ok _ _ _ a rest w v h

/-- Worked example for C2: `up-to 3` runs `UpTo(db, dir, 3)` once. -/
theorem each_command_runs_its_operation_witness :
    strconv.ParseInt "3" = (3, none) ∧
      Run sampleTab okEngine "up-to" none "migrations" ["3"] 0 =
        invoke okEngine (Call.UpTo none "migrations" 3) 0 :=
  ⟨by decide,
    (each_command_runs_its_operation sampleTab okEngine none "migrations" [] 0 "3" [] 3
      (by decide)).2.2.2.1⟩

/-- C3: `Run` never swallows an error.  If an engine operation that `Run`
called returned the non-nil error `e`, `Run` returns exactly `e`; and if `Run`
returns nil, it made exactly one engine call and that call returned nil. -/
theorem Run_never_swallows_error {DB σ ε : Type} (tab : Char → Bool) (eng : Engine DB σ ε)
    (command : String) (db : DB) (dir : String) (args : List String) (w : σ) :
    (∀ c ∈ (Run tab eng command db dir args w).calls, ∀ e, (eng c w).2 = some e →
        (Run tab eng command db dir args w).err = some (RunError.engine e)) ∧
      ((Run tab eng command db dir args w).err = none →
        ∃ c, (Run tab eng command db dir args w).calls = [c] ∧ (eng c w).2 = none) := by
  refine Run_rule tab eng command db dir args w
    (fun r => (∀ c ∈ r.calls, ∀ e, (eng c w).2 = some e → r.err = some (RunError.engine e)) ∧
      (r.err = none → ∃ c, r.calls = [c] ∧ (eng c w).2 = none)) ?_ ?_
  · intro c0
    constructor
    · intro c hc e he
      simp only [invoke, List.mem_singleton] at hc
      subst hc
      simp [invoke, he]
    · intro h
      refine ⟨c0, rfl, ?_⟩
      cases he : (eng c0 w).2 with
      | none => rfl
      | some e => simp [invoke, he] at h
  · intro msg
    constructor
    · intro c hc
      simp [fail] at hc
    · intro h
      simp [fail] at h

/-- Worked example for C3: when `Down` fails with "boom", so does `Run("down")`. -/
theorem Run_never_swallows_error_witness :
    (Run sampleTab failingEngine "down" none "migrations" [] 0).err =
      some (RunError.engine "boom") :=
  (Run_never_swallows_error sampleTab failingEngine "down" none "migrations" [] 0).1
    (Call.Down none "migrations") (by decide) "boom" rfl

/-! ## Leading zeros -/

theorem isDigitString_pad (k : Nat) (ds : List Char) (h : isDigitString ds = true) :
    isDigitString (List.replicate k '0' ++ ds) = true := by
  simp only [isDigitString, Bool.and_eq_true, Bool.not_eq_true', List.isEmpty_eq_false,
    List.all_eq_true] at h ⊢
  obtain ⟨h1, h2⟩ := h
  constructor
  · cases ds with
    | nil => exact absurd rfl h1
    | cons c cs => simp
  · intro x hx
    rcases List.mem_append.1 hx with hx | hx
    · rw [List.eq_of_mem_replicate hx]
      decide
    · exact h2 x hx

theorem digitsValue_pad (k : Nat) (ds : List Char) :
    digitsValue 0 (List.replicate k '0' ++ ds) = digitsValue 0 ds := by
  induction k with
  | zero => simp
  | succ k ih =>
    rw [List.replicate_succ, List.cons_append, digitsValue_cons]
    exact ih

theorem decimalLiteral_padZeros (k : Nat) (s : String) (n : Int)
    (h : decimalLiteral? s = some n) : decimalLiteral? (padZeros k s) = some n := by
  unfold decimalLiteral? at h
  unfold padZeros
  cases hdat : s.data with
  | nil => rw [hdat] at h; simp at h
  | cons c rest =>
    rw [hdat] at h
    simp only at h ⊢
    by_cases hm : c = '-'
    · rw [if_pos hm] at h
      rw [if_pos (Or.inl hm)]
      by_cases hds : isDigitString rest = true
      · rw [if_pos hds] at h
        simp only [decimalLiteral?]
        rw [if_pos hm, if_pos (isDigitString_pad k rest hds), digitsValue_pad]
        exact h
      · rw [if_neg hds] at h
        simp at h
    · rw [if_neg hm] at h
      by_cases hp : c = '+'
      · rw [if_pos hp] at h
        rw [if_pos (Or.inr hp)]
        by_cases hds : isDigitString rest = true
        · rw [if_pos hds] at h
          simp only [decimalLiteral?]
          rw [if_neg hm, if_pos hp, if_pos (isDigitString_pad k rest hds), digitsValue_pad]
          exact h
        · rw [if_neg hds] at h
          simp at h
      · rw [if_neg hp] at h
        rw [if_neg (by simp [hm, hp])]
        by_cases hds : isDigitString (c :: rest) = true
        · rw [if_pos hds] at h
          have hpad := isDigitString_pad k (c :: rest) hds
          have hval := digitsValue_pad k (c :: rest)
          cases k with
          | zero =>
            simp only [decimalLiteral?, List.replicate_zero, List.nil_append]
            rw [if_neg hm, if_neg hp, if_pos hds]
            exact h
          | succ k =>
            rw [List.replicate_succ, List.cons_append] at hpad hval ⊢
            simp only [decimalLiteral?]
            rw [if_neg (by decide), if_neg (by decide), if_pos hpad, hval]
            exact h
        · rw [if_neg hds] at h
          simp at h

/-! ## The usual decimal rendering is a literal -/

theorem digitChar_spec : ∀ x, x < 10 →
    isDecimalDigit (Nat.digitChar x) = true ∧ (Nat.digitChar x).toNat - 48 = x := by
  decide

theorem toDigitsCore_spec (fuel : Nat) : ∀ (n : Nat) (ds : List Char), n < fuel →
    (ds.all isDecimalDigit = true → (Nat.toDigitsCore 10 fuel n ds).all isDecimalDigit = true) ∧
      Nat.toDigitsCore 10 fuel n ds ≠ [] ∧
      digitsValue 0 (Nat.toDigitsCore 10 fuel n ds) = digitsValue n ds := by
  induction fuel with
  | zero => intro n ds h; omega
  | succ fuel ih =>
    intro n ds h
    have hd := digitChar_spec (n % 10) (Nat.mod_lt _ (by norm_num))
    simp only [Nat.toDigitsCore]
    by_cases h0 : n / 10 = 0
    · rw [if_pos h0]
      refine ⟨?_, by simp, ?_⟩
      · intro hds
        simp only [List.all_cons, hd.1, hds, Bool.and_self]
      · rw [digitsValue_cons, hd.2]
        congr 1
        omega
    · rw [if_neg h0]
      obtain ⟨i1, i2, i3⟩ := ih (n / 10) (Nat.digitChar (n % 10) :: ds) (by omega)
      refine ⟨?_, i2, ?_⟩
      · intro hds
        apply i1
        simp only [List.all_cons, hd.1, hds, Bool.and_self]
      · rw [i3, digitsValue_cons, hd.2]
        congr 1
        omega

theorem toDigits_spec (m : Nat) :
    isDigitString (Nat.toDigits 10 m) = true ∧ digitsValue 0 (Nat.toDigits 10 m) = m := by
  obtain ⟨h1, h2, h3⟩ := toDigitsCore_spec (m + 1) m [] (by omega)
  refine ⟨?_, ?_⟩
  · simp only [isDigitString, Nat.toDigits, Bool.and_eq_true, Bool.not_eq_true', List.isEmpty_eq_false]
    exact ⟨h2, h1 rfl⟩
  · rw [Nat.toDigits, h3]
    rfl

theorem decimalLiteral_digitString (l : List Char) (h : isDigitString l = true) :
    decimalLiteral? (String.mk l) = some (digitsValue 0 l : Int) := by
  cases l with
  | nil => simp [isDigitString] at h
  | cons c rest =>
    have hc : isDecimalDigit c = true := by
      simp only [isDigitString, List.all_cons, Bool.and_eq_true] at h
      exact h.2.1
    have hm : ¬ c = '-' := by
      intro hEq; rw [hEq] at hc; exact absurd hc (by decide)
    have hp : ¬ c = '+' := by
      intro hEq; rw [hEq] at hc; exact absurd hc (by decide)
    simp only [decimalLiteral?]
    rw [if_neg hm, if_neg hp, if_pos h]

/-- The decimal rendering of an integer (as `toString` prints it) is a base-10
literal of that integer. -/
theorem decimalLiteral_toString (n : Int) : decimalLiteral? (toString n) = some n := by
  cases n with
  | ofNat m =>
    have h := toDigits_spec m
    have hs : toString (Int.ofNat m) = String.mk (Nat.toDigits 10 m) := rfl
    rw [hs, decimalLiteral_digitString _ h.1, h.2]
    rfl
  | negSucc m =>
    have h := toDigits_spec (m + 1)
    have hs : toString (Int.negSucc m) = String.mk ('-' :: Nat.toDigits 10 (m + 1)) := rfl
    rw [hs]
    simp only [decimalLiteral?]
    rw [if_pos trivial, if_pos h.1, h.2]
    rfl

/-- C4 as stated fails: `up-to -1` hands the version -1, which is below
`minVersion`, to `UpTo`. -/
theorem negative_version_reaches_UpTo :
    Call.UpTo none "migrations" (-1) ∈
        (Run sampleTab okEngine "up-to" none "migrations" ["-1"] 0).calls ∧
      ¬ (minVersion ≤ (-1 : Int) ∧ (-1 : Int) ≤ maxVersion) := by
  decide

/-- C4, amended: every version that `Run` passes to `UpTo`, `Apply`, `Revert`
or `DownTo` is the integer that `args[0]` denotes as a base-10 literal, and
lies in the `int64` range, between `-2^63` and `maxVersion = 2^63 - 1`. -/
theorem passed_version_in_int64 {DB σ ε : Type} (tab : Char → Bool) (eng : Engine DB σ ε)
    (command : String) (db : DB) (dir : String) (args : List String) (w : σ)
    (db1 : DB) (dir1 : String) (v : Int)
    (h : Call.UpTo db1 dir1 v ∈ (Run tab eng command db dir args w).calls ∨
      Call.Apply db1 dir1 v ∈ (Run tab eng command db dir args w).calls ∨
      Call.Revert db1 dir1 v ∈ (Run tab eng command db dir args w).calls ∨
      Call.DownTo db1 dir1 v ∈ (Run tab eng command db dir args w).calls) :
    (-(2 ^ 63) ≤ v ∧ v ≤ maxVersion) ∧
      ∃ a rest, args = a :: rest ∧ decimalLiteral? a = some v := by
  have hp : ∃ a rest, args = a :: rest ∧ strconv.ParseInt a = (v, none) := by
    rcases h with h | h | h | h
    · exact Run_version_parsed tab eng command db dir args w _ h v rfl
    · exact Run_version_parsed tab eng command db dir args w _ h v rfl
    · exact Run_version_parsed tab eng command db dir args w _ h v rfl
    · exact Run_version_parsed tab eng command db dir args w _ h v rfl
  obtain ⟨a, rest, ha, hparse⟩ := hp
  obtain ⟨hlit, hrange⟩ := (ParseInt_ok_iff a v).1 hparse
  exact ⟨hrange, a, rest, ha, hlit⟩

/-- Worked example for the amended C4: the version -1 passed by `up-to -1`. -/
theorem passed_version_in_int64_witness :
    (-(2 ^ 63) ≤ (-1 : Int) ∧ (-1 : Int) ≤ maxVersion) ∧
      ∃ a rest, ["-1"] = a :: rest ∧ decimalLiteral? a = some (-1) :=
  passed_version_in_int64 sampleTab okEngine "up-to" none "migrations" ["-1"] 0
    none "migrations" (-1) (Or.inl (by decide))

/-- C5: versions are read as base-10 integers.  When `args[0]` is the decimal
rendering of an integer `n` of the `int64` range, or any other base-10 literal
of `n`, written with any number `k` of additional leading zeros, each of up-to,
apply, revert and down-to calls its operation with version exactly `n`. -/
theorem version_read_as_decimal {DB σ ε : Type} (tab : Char → Bool) (eng : Engine DB σ ε)
    (db : DB) (dir : String) (a : String) (rest : List String) (w : σ) (n : Int) (k : Nat)
    (hlit : a = toString n ∨ decimalLiteral? a = some n)
    (hrange : -(2 ^ 63) ≤ n ∧ n ≤ 2 ^ 63 - 1) :
    Run tab eng "up-to" db dir (padZeros k a :: rest) w = invoke eng (Call.UpTo db dir n) w ∧
      Run tab eng "apply" db dir (padZeros k a :: rest) w =
        invoke eng (Call.Apply db dir n) w ∧
      Run tab eng "revert" db dir (padZeros k a :: rest) w =
        invoke eng (Call.Revert db dir n) w ∧
      Run tab eng "down-to" db dir (padZeros k a :: rest) w =
        invoke eng (Call.DownTo db dir n) w := by
  have hlit2 : decimalLiteral? a = some n := by
    rcases hlit with h | h
    · rw [h]; exact decimalLiteral_toString n
    · exact h
  have hparse : strconv.ParseInt (padZeros k a) = (n, none) :=
    (ParseInt_ok_iff _ n).2 ⟨decimalLiteral_padZeros k a n hlit2, hrange⟩
  refine ⟨?_, ?_, ?_, ?_⟩
  · rw [Run_up_to]; exact versionCase_ok _ _ _ _ rest w n hparse
  · rw [Run_apply]; exact versionCase_ok _ _ _ _ rest w n hparse
  · rw [Run_revert]; exact versionCase_ok _ _ _ _ rest w n hparse
  · rw [Run_down_to]; exact versionCase_ok _ _ _ _ rest w n hparse

/-- Worked example for C5: `apply 00002` (the literal 2 with four more zeros)
applies version 2. -/
theorem version_read_as_decimal_witness :
    padZeros 4 "2" = "00002" ∧
      Run sampleTab okEngine "apply" none "migrations" ["00002"] 0 =
        invoke okEngine (Call.Apply none "migrations" 2) 0 :=
  ⟨by decide,
    (version_read_as_decimal sampleTab okEngine none "migrations" "2" [] 0 2 4
      (Or.inl (by decide)) (by decide)).2.1⟩

theorem Run_versionCommand {DB σ ε : Type} (tab : Char → Bool) (eng : Engine DB σ ε)
    (c : String) (hc : c ∈ versionCommands) (db : DB) (dir : String) (args : List String)
    (w : σ) :
    ∃ op : Int → Call DB, Run tab eng c db dir args w =
      versionCase eng (c ++ " must be of form: goose [OPTIONS] DRIVER DBSTRING " ++ c ++
        " VERSION") op args w := by
  simp only [versionCommands, List.mem_cons, List.mem_singleton, List.not_mem_nil,
    or_false] at hc
  rcases hc with hc | hc | hc | hc
  · subst hc; exact ⟨_, Run_up_to tab eng db dir args w⟩
  · subst hc; exact ⟨_, Run_apply tab eng db dir args w⟩
  · subst hc; exact ⟨_, Run_revert tab eng db dir args w⟩
  · subst hc; exact ⟨_, Run_down_to tab eng db dir args w⟩

/-- C6: for up-to, apply, revert and down-to with a first argument `a`, `Run`
returns the error "version must be a number (got 'a')" if and only if `a` is
not a base-10 literal of an integer in `[-2^63, 2^63 - 1]`; when it returns that
error no engine operation was called and the world is untouched.  The text
contains `a` verbatim, between the quotes. -/
theorem version_error_iff_not_literal {DB σ ε : Type} (tab : Char → Bool)
    (eng : Engine DB σ ε) (c : String) (hc : c ∈ versionCommands) (db : DB) (dir : String)
    (a : String) (rest : List String) (w : σ) :
    ((Run tab eng c db dir (a :: rest) w).err =
        some (RunError.errorf ("version must be a number (got '" ++ a ++ "')")) ↔
      ¬ ∃ n : Int, decimalLiteral? a = some n ∧ -(2 ^ 63) ≤ n ∧ n ≤ 2 ^ 63 - 1) ∧
    ((Run tab eng c db dir (a :: rest) w).err =
        some (RunError.errorf ("version must be a number (got '" ++ a ++ "')")) →
      (Run tab eng c db dir (a :: rest) w).calls = [] ∧
        (Run tab eng c db dir (a :: rest) w).world = w) := by
  obtain ⟨op, hrun⟩ := Run_versionCommand tab eng c hc db dir (a :: rest) w
  rw [hrun]
  exact ⟨versionCase_err_iff eng _ op a rest w,
    fun h => versionCase_err_quiet eng _ op a rest w _ h⟩

/-- Worked example for C6: `revert 1_0` is refused with the argument quoted in
the message, and nothing is run. -/
theorem version_error_iff_not_literal_witness :
    (Run sampleTab okEngine "revert" none "migrations" ["1_0"] 0).err =
        some (RunError.errorf "version must be a number (got '1_0')") ∧
      (Run sampleTab okEngine "revert" none "migrations" ["1_0"] 0).calls = [] :=
  have h := version_error_iff_not_literal sampleTab okEngine "revert" (by decide) none
    "migrations" "1_0" [] 0
  ⟨h.1.2 (by decide), (h.2 (h.1.2 (by decide))).1⟩

/-- C7: a version is mandatory.  With no arguments, each of up-to, apply,
revert and down-to returns the usage error naming that same command and calls
no engine operation; so does create, with its own usage text. -/
theorem missing_argument_usage_error {DB σ ε : Type} (tab : Char → Bool)
    (eng : Engine DB σ ε) (c : String) (hc : c ∈ versionCommands) (db : DB) (dir : String)
    (w : σ) :
    Run tab eng c db dir [] w =
        { calls := [], world := w,
          err := some (RunError.errorf
            (c ++ " must be of form: goose [OPTIONS] DRIVER DBSTRING " ++ c ++ " VERSION")) } ∧
      Run tab eng "create" db dir [] w =
        { calls := [], world := w,
          err := some (RunError.errorf
            "create must be of form: goose [OPTIONS] DRIVER DBSTRING create NAME [go|sql]") } := by
  obtain ⟨op, hrun⟩ := Run_versionCommand tab eng c hc db dir [] w
  rw [hrun]
  exact ⟨rfl, rfl⟩

/-- Worked example for C7: `down-to` without a version. -/
theorem missing_argument_usage_error_witness :
    (Run sampleTab okEngine "down-to" none "migrations" [] 0).err =
        some (RunError.errorf
          "down-to must be of form: goose [OPTIONS] DRIVER DBSTRING down-to VERSION") ∧
      (Run sampleTab okEngine "down-to" none "migrations" [] 0).calls = [] :=
  have h := (missing_argument_usage_error sampleTab okEngine "down-to" (by decide) none
    "migrations" 0).1
  ⟨by rw [h]; decide, by rw [h]⟩

/-- C8: `Run("fix", db, dir, args...)` makes the single call `Fix(dir)` and
returns its result; `db` and `args` reach no operation, so the outcome is the
same for any other `db` and `args`. -/
theorem fix_ignores_db_and_args {DB σ ε : Type} (tab : Char → Bool) (eng : Engine DB σ ε)
    (db : DB) (dir : String) (args : List String) (w : σ) :
    (Run tab eng "fix" db dir args w).calls = [Call.Fix dir] ∧
      (Run tab eng "fix" db dir args w).err = (eng (Call.Fix dir) w).2.map RunError.engine ∧
      (Run tab eng "fix" db dir args w).world = (eng (Call.Fix dir) w).1 ∧
      ∀ (db1 : DB) (args1 : List String),
        Run tab eng "fix" db1 dir args1 w = Run tab eng "fix" db dir args w := by
  refine ⟨rfl, rfl, rfl, ?_⟩
  intro db1 args1
  rw [Run_fix, Run_fix]

/-- C9 as stated fails: with three arguments a second argument is present,
yet `Create` receives the type "go", not `args[1]`. -/
theorem create_three_args_uses_go :
    (Run sampleTab okEngine "create" none "migrations" ["users", "sql", "x"] 0).calls =
        [Call.Create none "migrations" "users" "go"] ∧
      (Run sampleTab okEngine "create" none "migrations" ["users", "sql", "x"] 0).calls ≠
        [Call.Create none "migrations" "users" "sql"] := by
  decide

/-- C9, amended: for non-empty `args`, create makes the single call
`Create(db, dir, args[0], t)`, where `t` is `args[1]` when there are exactly two
arguments and "go" for any other number of arguments. -/
theorem create_type_from_second_of_two {DB σ ε : Type} (tab : Char → Bool)
    (eng : Engine DB σ ε) (db : DB) (dir : String) (name t : String) (rest : List String)
    (w : σ) (hrest : rest.length ≠ 1) :
    Run tab eng "create" db dir [name, t] w = invoke eng (Call.Create db dir name t) w ∧
      Run tab eng "create" db dir (name :: rest) w =
        invoke eng (Call.Create db dir name "go") w := by
  refine ⟨rfl, ?_⟩
  rw [Run_create_cons, if_neg (by simpa using hrest)]

/-- Worked example for the amended C9: `create users sql`, and `create users`. -/
theorem create_type_from_second_of_two_witness :
    Run sampleTab okEngine "create" none "migrations" ["users", "sql"] 0 =
        invoke okEngine (Call.Create none "migrations" "users" "sql") 0 ∧
      Run sampleTab okEngine "create" none "migrations" ["users"] 0 =
        invoke okEngine (Call.Create none "migrations" "users" "go") 0 :=
  create_type_from_second_of_two sampleTab okEngine none "migrations" "users" "sql" [] 0
    (by decide)

/-- C10: a command that is not, letter for letter, one of the thirteen names
of the switch is rejected with the error `"<command quoted>: no such command"`
(the `%q` rendering of the command), no engine operation is called and the
world is untouched; and for none of the thirteen names is that error returned. -/
theorem unknown_command_rejected {DB σ ε : Type} (tab : Char → Bool) (eng : Engine DB σ ε)
    (command : String) (db : DB) (dir : String) (args : List String) (w : σ) :
    (command ∉ commandNames →
        Run tab eng command db dir args w =
          { calls := [], world := w,
            err := some (RunError.errorf
              (strconv.Quote tab command ++ ": no such command")) }) ∧
      (command ∈ commandNames →
        (Run tab eng command db dir args w).err ≠
          some (RunError.errorf (strconv.Quote tab command ++ ": no such command"))) := by
  constructor
  · intro h
    exact Run_default tab eng command db dir args w h
  · intro h
    have hq : ∀ cmd usage : String, usage.data.head? ≠ some '"' →
        (fail w usage : RunResult DB σ ε).err ≠
          some (RunError.errorf (noSuchCommandMsg tab cmd)) := by
      intro cmd usage hu hEq
      simp only [fail, Option.some.injEq, RunError.errorf.injEq] at hEq
      apply hu
      rw [hEq]
      exact noSuchCommandMsg_head tab cmd
    show (Run tab eng command db dir args w).err ≠
      some (RunError.errorf (noSuchCommandMsg tab command))
    simp only [commandNames, List.mem_cons, List.mem_singleton, List.not_mem_nil,
      or_false] at h
    rcases h with h | h | h | h | h | h | h | h | h | h | h | h | h
    · rw [h, Run_up]; exact invoke_err_ne_errorf eng _ w _
    · rw [h, Run_up_by_one]; exact invoke_err_ne_errorf eng _ w _
    · rw [h, Run_up_to]; exact versionCase_ne_noSuchCommand tab eng _ _ args w _ (by decide)
    · rw [h, Run_apply]; exact versionCase_ne_noSuchCommand tab eng _ _ args w _ (by decide)
    · rw [h, Run_revert]; exact versionCase_ne_noSuchCommand tab eng _ _ args w _ (by decide)
    · rw [h]
      cases args with
      | nil =>
        rw [Run_create_nil]
        refine hq "create" "create must be of form: goose [OPTIONS] DRIVER DBSTRING create NAME [go|sql]" ?_
        decide
      | cons name rest => rw [Run_create_cons]; exact invoke_err_ne_errorf eng _ w _
    · rw [h, Run_down]; exact invoke_err_ne_errorf eng _ w _
    · rw [h, Run_down_to]; exact versionCase_ne_noSuchCommand tab eng _ _ args w _ (by decide)
    · rw [h, Run_fix]; exact invoke_err_ne_errorf eng _ w _
    · rw [h, Run_redo]; exact invoke_err_ne_errorf eng _ w _
    · rw [h, Run_reset]; exact invoke_err_ne_errorf eng _ w _
    · rw [h, Run_status]; exact invoke_err_ne_errorf eng _ w _
    · rw [h, Run_version]; exact invoke_err_ne_errorf eng _ w _

/-- Worked example for C10: the names are case-sensitive, `Up` is unknown. -/
theorem unknown_command_rejected_witness :
    Run sampleTab okEngine "Up" none "migrations" ["1"] 0 =
      { calls := [], world := 0,
        err := some (RunError.errorf "\"Up\": no such command") } :=
  ((unknown_command_rejected sampleTab okEngine "Up" none "migrations" ["1"] 0).1
    (by decide)).trans (by decide)

end Goose
